import Mathlib

/-!
Shallow embedding of the abbreviation-allocation subsystem of the shorturl
repository: the acceptability filter, the random key generator
(`rando.RandStrn`), the allocator (`dao.randString` / `dao.CreateAbbreviation`)
and the in-memory reference backend (`dao.MemoryDB`). Go's mutable state is
passed explicitly; the allocator's unbounded retry loops take a fuel
parameter (`none` models non-termination); a `none` result of a delete
operation models the Go runtime panic caused by a nil-pointer dereference.
Go `int32` hit counters are modelled as `Nat` (they are only ever incremented
by one from zero; overflow is outside the scope of the verified claims), and
the wall clock (`time.Now()` and the formatted date `Date()`) is passed in as
explicit `now`/`today` parameters.
-/

namespace ShortUrl4

/-- Substring test: `strContains s sub` is true iff `sub` occurs as a
contiguous substring of `s` (Go `strings.Contains(s, sub)`). -/
def strContains (s sub : String) : Bool :=
  (List.range (s.length + 1)).any (fun i => sub.data.isPrefixOf (s.data.drop i))

/-- Modelled from the spec: the Acceptability Filter's static disallow-list.
The file defining `AcceptableWord` and its word list is not part of the
available sources (only its callers and its unit test `TestAcceptableWord`
are); the entries here are the ones its unit test exercises ("ass", "damn"). -/
def badwords : List String := ["ass", "damn"]

/-- Modelled from the spec: `AcceptableWord` (the Acceptability Filter,
`isAcceptable` in the spec). A candidate is unacceptable iff it contains a
disallow-list entry as a case-sensitive substring (exact equality being the
special case where the entry is the whole candidate). -/
def AcceptableWord (w : String) : Bool :=
  ! badwords.any (fun b => strContains w b)

/-- The generator alphabet (`rando.chars`): `a`-`z` then `0`-`9`. -/
def chars : List Char := "abcdefghijklmnopqrstuvwxyz0123456789".data

/-- `rando.RandStrn`: builds a string of `length` characters, the `i`-th one
being `chars[rand.Intn(len(chars))]`. The random source is modelled as a
stream `rand : Nat → Nat` of draws consumed at successive positions starting
from `pos` (each draw reduced `% len(chars)` to model `Intn`). -/
def RandStrn (length : Nat) (rand : Nat → Nat) (pos : Nat) : String :=
  ⟨(List.range length).map (fun i => chars.getD (rand (pos + i) % chars.length) 'a')⟩

/-- `dao.randString`, fuel-indexed. State threaded through: the retry counter
`tries` (local to one call, starting at 0), the random-stream position `pos`,
and the shared `keySize`. `g` is `env.IntOrDefault("keygrowretries", 10)`.
Returns the accepted word, the advanced stream position and the keySize in
force when the accepted word was generated (which is also the keySize the
caller observes afterwards). `none` models running out of fuel. -/
def randStringA (g : Nat) (rand : Nat → Nat) :
    Nat → Nat → Nat → Nat → Option (String × Nat × Nat)
  | 0, _, _, _ => none
  | fuel + 1, tries, pos, keySize =>
    let s := RandStrn keySize rand pos
    if AcceptableWord s then
      some (s, pos + keySize, keySize)
    else if tries + 1 > g then
      randStringA g rand fuel 0 (pos + keySize) (keySize + 1)
    else
      randStringA g rand fuel (tries + 1) (pos + keySize) keySize

/-- A storage backend as seen by the allocator: `getUrl` returns the bound
URL (empty when unbound) together with a Go-style error channel
(`none` = nil error), and the updated backend state (lookups may have side
effects, e.g. hit recording). -/
structure Backend (σ : Type) where
  getUrl : σ → String → (String × Option String) × σ

/-- The allocator's process-wide mutable state: the shared `keySize`, the
random-stream position, and the backend's state. -/
structure AllocState (σ : Type) where
  keySize : Nat
  pos : Nat
  backend : σ

/-- Outcome of `CreateAbbreviation`: the returned abbreviation, or the Go
error (in the error case Go returns the empty string for the key). -/
inductive AllocResult where
  | ok (abv : String)
  | err (msg : String)
deriving DecidableEq

/-- The `for` loop of `dao.CreateAbbreviation`, fuel-indexed. Arguments
mirror the Go locals: the current candidate `abv`, the URL `u` the backend
last reported for it (error discarded), and the loop's own retry counter
`tries`. One iteration: grow `keySize` when `tries` exceeds `g`; re-query
the backend for `abv` and abort on a hard error; otherwise generate a fresh
candidate and re-query. -/
def createLoop {σ : Type} (g : Nat) (rand : Nat → Nat) (B : Backend σ)
    (url : String) :
    Nat → String → String → Nat → AllocState σ → Option (AllocResult × AllocState σ)
  | 0, _, _, _, _ => none
  | fuel + 1, abv, u, tries, st =>
    if u ≠ "" ∧ url ≠ u then
      let tks : Nat × Nat :=
        if tries + 1 > g then (0, st.keySize + 1) else (tries + 1, st.keySize)
      let r1 := B.getUrl st.backend abv
      match r1.1.2 with
      | some e =>
        some (.err ("error checking abbreviation " ++ e), ⟨tks.2, st.pos, r1.2⟩)
      | none =>
        match randStringA g rand (fuel + 1) 0 st.pos tks.2 with
        | none => none
        | some (abv', pos', ks') =>
          let r2 := B.getUrl r1.2 abv'
          createLoop g rand B url fuel abv' r2.1.1 tks.1 ⟨ks', pos', r2.2⟩
    else
      some (.ok abv, st)

/-- `dao.CreateAbbreviation`: generate a first candidate, look it up with the
error discarded, and enter the collision-retry loop. -/
def CreateAbbreviation {σ : Type} (g : Nat) (rand : Nat → Nat) (B : Backend σ)
    (url : String) (fuel : Nat) (st : AllocState σ) :
    Option (AllocResult × AllocState σ) :=
  match randStringA g rand fuel 0 st.pos st.keySize with
  | none => none
  | some (abv, pos', ks') =>
    let r := B.getUrl st.backend abv
    createLoop g rand B url fuel abv r.1.1 0 ⟨ks', pos', r.2⟩

/-- Decidable summary of an allocation outcome: the returned abbreviation
(`none` when the allocator returned an error) and the final shared keySize. -/
def allocSummary {σ : Type} :
    Option (AllocResult × AllocState σ) → Option (Option String × Nat)
  | none => none
  | some (.ok a, st) => some (some a, st.keySize)
  | some (.err _, st) => some (none, st.keySize)

/-- `dao.ShortUrl`, the persisted record (with the `DailyHits` map used by
`MemoryDB`). `lastAccess` is a `time.Time` modelled as a `Nat` timestamp;
`dailyHits` is the Go map with zero-default lookup. -/
structure ShortUrlRec where
  abbreviation : String
  url : String
  hits : Nat
  lastAccess : Nat
  dailyHits : String → Nat

/-- The zero value `ShortUrl{}` returned by `GetStats` on a miss. -/
def emptyRec : ShortUrlRec := ⟨"", "", 0, 0, fun _ => 0⟩

/-- Go map update (also used for map `delete` by storing `none`). -/
def upd {α : Type} (f : String → α) (k : String) (v : α) : String → α :=
  fun k' => if k' = k then v else f k'

/-- `dao.MemoryDB`. The two Go maps hold `*ShortUrl` pointers and may alias
(one `Save` stores the same pointer in both maps); this is modelled with an
explicit heap of records indexed by allocation order, the maps holding heap
indices. -/
structure MemoryDB where
  heap : List ShortUrlRec
  urlNdx : String → Option Nat
  abvNdx : String → Option Nat

/-- `dao.CreateMemoryDB`. -/
def CreateMemoryDB : MemoryDB := ⟨[], fun _ => none, fun _ => none⟩

/-- `MemoryDB.Save`: builds a fresh record (`Hits: 0`, empty `DailyHits`) and
stores a pointer to it under both keys, unconditionally overwriting any
previous bindings; always returns a nil error (modelled `none`). -/
def MemoryDB.Save (d : MemoryDB) (abv url : String) : Option String × MemoryDB :=
  let su : ShortUrlRec := ⟨abv, url, 0, 0, fun _ => 0⟩
  (none,
   { heap := d.heap ++ [su],
     urlNdx := upd d.urlNdx url (some d.heap.length),
     abvNdx := upd d.abvNdx abv (some d.heap.length) })

/-- `MemoryDB.DeleteAbv`: reads the (possibly nil) pointer for `abv`, deletes
the `abv` binding, then dereferences the pointer for `su.Url` to delete the
URL binding. When `abv` is unbound the pointer is nil and the dereference is
a Go runtime panic, modelled as `none`; otherwise the Go nil error is
returned. -/
def MemoryDB.DeleteAbv (d : MemoryDB) (abv : String) :
    Option (Option String × MemoryDB) :=
  match d.abvNdx abv with
  | none => none
  | some p =>
    match d.heap[p]? with
    | none => none
    | some su =>
      some (none,
        { d with abvNdx := upd d.abvNdx abv none,
                 urlNdx := upd d.urlNdx su.url none })

/-- `MemoryDB.DeleteUrl`: symmetric to `DeleteAbv`; dereferences the pointer
bound to `url` (nil-pointer panic modelled as `none` when `url` is unbound). -/
def MemoryDB.DeleteUrl (d : MemoryDB) (url : String) :
    Option (Option String × MemoryDB) :=
  match d.urlNdx url with
  | none => none
  | some p =>
    match d.heap[p]? with
    | none => none
    | some su =>
      some (none,
        { d with abvNdx := upd d.abvNdx su.abbreviation none,
                 urlNdx := upd d.urlNdx url none })

/-- `MemoryDB.GetUrl`: when `abv` is bound to a record with a non-empty URL,
increments its `Hits`, sets `LastAccess` to `now`, increments
`DailyHits[today]` (all in place, through the shared pointer) and returns the
URL; otherwise returns the empty string. The Go error result is always nil
and is omitted. -/
def MemoryDB.GetUrl (d : MemoryDB) (abv : String) (now : Nat) (today : String) :
    String × MemoryDB :=
  match d.abvNdx abv with
  | none => ("", d)
  | some p =>
    match d.heap[p]? with
    | none => ("", d)
    | some su =>
      if su.url.length > 0 then
        let su' : ShortUrlRec :=
          { su with hits := su.hits + 1, lastAccess := now,
                    dailyHits := upd su.dailyHits today (su.dailyHits today + 1) }
        (su.url, { d with heap := d.heap.set p su' })
      else ("", d)

/-- `MemoryDB.GetAbv`: reverse lookup, no side effects; empty string on a
miss, always a nil error (omitted). -/
def MemoryDB.GetAbv (d : MemoryDB) (url : String) : String :=
  match d.urlNdx url with
  | none => ""
  | some p =>
    match d.heap[p]? with
    | none => ""
    | some su => su.abbreviation

/-- `MemoryDB.GetStats`: snapshot of the record (copy through the pointer),
`ShortUrl{}` on a miss, always a nil error (omitted). -/
def MemoryDB.GetStats (d : MemoryDB) (abv : String) : ShortUrlRec :=
  match d.abvNdx abv with
  | none => emptyRec
  | some p =>
    match d.heap[p]? with
    | none => emptyRec
    | some su => su

/-- A `MemoryDB` wrapped as an allocator backend, the clock fixed to
`now`/`today`; its `GetUrl` never returns a Go error. -/
def memBackend (now : Nat) (today : String) : Backend MemoryDB :=
  ⟨fun d abv =>
    let r := d.GetUrl abv now today
    ((r.1, none), r.2)⟩

/-- One backend operation of the `ShortUrlDao` interface (the read-only
`IsLikelyOk`/`Cleanup` are identities on the store and omitted). -/
inductive Op where
  | save (abv url : String)
  | deleteAbv (abv : String)
  | deleteUrl (url : String)
  | getUrl (abv : String) (now : Nat) (today : String)
  | getAbv (url : String)
  | getStats (abv : String)

/-- Whether an operation is a `Save` of the given abbreviation. -/
def Op.isSaveOf : Op → String → Bool
  | .save b _, a => b == a
  | _, _ => false

/-- Apply one operation to the in-memory store; `none` models the delete
nil-pointer panic. -/
def applyOp : Op → MemoryDB → Option MemoryDB
  | .save a u, d => some (d.Save a u).2
  | .deleteAbv a, d => (d.DeleteAbv a).map (·.2)
  | .deleteUrl u, d => (d.DeleteUrl u).map (·.2)
  | .getUrl a now today, d => some (d.GetUrl a now today).2
  | .getAbv _, d => some d
  | .getStats _, d => some d

/-- Apply a sequence of operations left to right. -/
def applyOps : List Op → MemoryDB → Option MemoryDB
  | [], d => some d
  | op :: ops, d => (applyOp op d).bind (applyOps ops)

/-- The hit counter of the record currently bound to `a`, when one is. -/
def hitsOf (d : MemoryDB) (a : String) : Option Nat :=
  (d.abvNdx a).bind (fun p => (d.heap[p]?).map (·.hits))

/-- `n` consecutive `GetUrl` resolutions of `a` (same clock), collecting the
returned URLs. -/
def resolveN (a : String) (now : Nat) (today : String) :
    Nat → MemoryDB → List String × MemoryDB
  | 0, d => ([], d)
  | n + 1, d =>
    let r := d.GetUrl a now today
    let rest := resolveN a now today n r.2
    (r.1 :: rest.1, rest.2)

/-- The in-place hit update `GetUrl` performs on the record it resolves:
increment `hits`, set `lastAccess`, increment `dailyHits[today]`. -/
def bumpRec (su : ShortUrlRec) (now : Nat) (today : String) : ShortUrlRec :=
  { su with hits := su.hits + 1, lastAccess := now,
            dailyHits := upd su.dailyHits today (su.dailyHits today + 1) }

/-- A constant random stream (every draw 0, so every candidate is a run of
the letter `a`). -/
def rand0 : Nat → Nat := fun _ => 0

/-- A healthy backend that holds no bindings: every lookup returns the empty
URL with a nil error and leaves the state unchanged. -/
def trivBackend : Backend Unit := ⟨fun s _ => (("", none), s)⟩

/-- A failing backend: every lookup returns the empty URL together with a
hard error. -/
def failBackend : Backend Unit := ⟨fun s _ => (("", some "backend down"), s)⟩

/-- Random stream for the C2 counterexample run at keySize 3: positions 0-2
spell "abc", positions 3-32 spell ten copies of "ass", positions 33-35 spell
"xyz". -/
def randC2 : Nat → Nat := fun p =>
  if p < 3 then p
  else if p < 33 then (if (p - 3) % 3 = 0 then 0 else 18)
  else 23 + (p - 33) % 3

/-- Random stream for the C2 witness run at keySize 3: positions 0-32 spell
eleven copies of "ass", positions from 33 on spell runs of "a". -/
def randC2w : Nat → Nat := fun p =>
  if p < 33 then (if p % 3 = 0 then 0 else 18) else 0

/-! Helper lemmas. -/

lemma upd_same {α : Type} (f : String → α) (k : String) (v : α) :
    upd f k v k = v := by
  simp [upd]

lemma upd_other {α : Type} (f : String → α) (k k' : String) (v : α)
    (h : k' ≠ k) : upd f k v k' = f k' := by
  simp [upd, h]

lemma string_pos_iff (s : String) : 0 < s.length ↔ s ≠ "" := by
  rw [Ne, String.ext_iff]
  cases s with
  | mk l => cases l <;> simp [String.length]

lemma strContains_self (w : String) : strContains w w = true := by
  refine List.any_eq_true.mpr ⟨0, ?_, ?_⟩
  · exact List.mem_range.mpr (Nat.succ_pos _)
  · show w.data.isPrefixOf (w.data.drop 0) = true
    rw [List.drop_zero]
    exact List.isPrefixOf_iff_prefix.mpr (List.prefix_refl w.data)

lemma getUrl_step (d : MemoryDB) (a : String) (now : Nat) (today : String)
    (p : Nat) (su : ShortUrlRec) (hA : d.abvNdx a = some p)
    (hH : d.heap[p]? = some su) (hu : su.url ≠ "") :
    d.GetUrl a now today =
      (su.url, { d with heap := d.heap.set p (bumpRec su now today) }) := by
  have hlen : 0 < su.url.length := (string_pos_iff su.url).mpr hu
  simp [MemoryDB.GetUrl, bumpRec, hA, hH, hlen]

/-- C8 (confirmed; filter modelled from the spec): `AcceptableWord` returns
false exactly when the candidate equals or contains a disallow-list entry as
a case-sensitive substring, and in particular `AcceptableWord "classic"` is
false while `AcceptableWord "abc123"` and `AcceptableWord ""` are true. -/
theorem C8_acceptable_word :
    (∀ w : String,
      AcceptableWord w = false ↔ ∃ b ∈ badwords, b = w ∨ strContains w b = true) ∧
    AcceptableWord "classic" = false ∧
    AcceptableWord "abc123" = true ∧
    AcceptableWord "" = true := by
  refine ⟨fun w => ?_, by decide, by decide, by decide⟩
  constructor
  · intro h
    have h' : badwords.any (fun b => strContains w b) = true := by
      simpa [AcceptableWord] using h
    obtain ⟨b, hb, hc⟩ := List.any_eq_true.mp h'
    exact ⟨b, hb, Or.inr hc⟩
  · rintro ⟨b, hb, hbw | hc⟩
    · subst hbw
      simp [AcceptableWord]
      exact ⟨b, hb, strContains_self b⟩
    · simp [AcceptableWord]
      exact ⟨b, hb, hc⟩

/-- C6 (code_bug): per the spec, deleting a non-existent key must be a
success no-op; the code instead dereferences the nil `*ShortUrl` fetched
from the map and panics (modelled as `none`), for both `DeleteAbv` and
`DeleteUrl` on a fresh store. -/
theorem C6_delete_missing_panics :
    MemoryDB.DeleteAbv CreateMemoryDB "missing" = none ∧
    MemoryDB.DeleteUrl CreateMemoryDB "https://missing.com" = none := by
  exact ⟨rfl, rfl⟩

/-- C7 (confirmed): after `Save a u` followed by `DeleteAbv a` (which
succeeds with a nil error), resolving `a` and reverse-resolving `u` both
return the empty string: the delete removes the mapping in both directions. -/
theorem C7_delete_symmetry (d : MemoryDB) (a u : String) (now : Nat)
    (today : String) :
    (((d.Save a u).2.DeleteAbv a).map
      (fun r => (r.1, (r.2.GetUrl a now today).1, r.2.GetAbv u))) =
      some (none, "", "") := by
  simp [MemoryDB.Save, MemoryDB.DeleteAbv, MemoryDB.GetUrl, MemoryDB.GetAbv,
        upd_same, upd, List.getElem?_concat_length]

/-- C10 (confirmed): in the in-memory backend the hit update of a successful
`GetUrl` is synchronous: an immediately following `GetStats` sees `hits`
exactly one greater and `dailyHits[today]` exactly one greater than before
the call. -/
theorem C10_synchronous_hit (d : MemoryDB) (a : String) (now : Nat)
    (today : String) (h : (d.GetUrl a now today).1 ≠ "") :
    ((d.GetUrl a now today).2.GetStats a).hits = (d.GetStats a).hits + 1 ∧
    ((d.GetUrl a now today).2.GetStats a).dailyHits today =
      (d.GetStats a).dailyHits today + 1 := by
  cases hA : d.abvNdx a with
  | none => simp [MemoryDB.GetUrl, hA] at h
  | some p =>
    cases hH : d.heap[p]? with
    | none => simp [MemoryDB.GetUrl, hA, hH] at h
    | some su =>
      by_cases hu : su.url = ""
      · simp [MemoryDB.GetUrl, hA, hH, hu] at h
      · rw [getUrl_step d a now today p su hA hH hu]
        have hset : (d.heap.set p (bumpRec su now today))[p]? =
            some (bumpRec su now today) := by
          rw [List.getElem?_set_self', hH]
          rfl
        simp only [bumpRec] at hset
        simp [MemoryDB.GetStats, bumpRec, hA, hH, hset, upd_same]

/-- C10 witness. -/
theorem C10_synchronous_hit_witness :
    (((CreateMemoryDB.Save "ab" "https://x.com").2.GetUrl "ab" 7 "2026-02-03").2.GetStats
        "ab").hits =
      ((CreateMemoryDB.Save "ab" "https://x.com").2.GetStats "ab").hits + 1 ∧
    (((CreateMemoryDB.Save "ab" "https://x.com").2.GetUrl "ab" 7 "2026-02-03").2.GetStats
        "ab").dailyHits "2026-02-03" =
      ((CreateMemoryDB.Save "ab" "https://x.com").2.GetStats "ab").dailyHits "2026-02-03" + 1 :=
  C10_synchronous_hit (CreateMemoryDB.Save "ab" "https://x.com").2 "ab" 7 "2026-02-03"
    (by decide)

/-- C4 counterexample: after `Save "a" u1` and one resolution (hits = 1), a
second `Save "a" u1` returns a nil error but resets the record's hits to 0
(not a no-op), and `Save "a" u2` with a different URL also returns a nil
error (no conflict) and rebinds the abbreviation to u2 (store changed). -/
theorem C4_counterexample :
    ((((CreateMemoryDB.Save "a" "https://u1.com").2.GetUrl "a" 5 "2026-02-03").2.GetStats
        "a").hits = 1) ∧
    ((((CreateMemoryDB.Save "a" "https://u1.com").2.GetUrl "a" 5 "2026-02-03").2.Save
        "a" "https://u1.com").1 = none) ∧
    (((((CreateMemoryDB.Save "a" "https://u1.com").2.GetUrl "a" 5 "2026-02-03").2.Save
        "a" "https://u1.com").2.GetStats "a").hits = 0) ∧
    ((((CreateMemoryDB.Save "a" "https://u1.com").2.GetUrl "a" 5 "2026-02-03").2.Save
        "a" "https://u2.com").1 = none) ∧
    (((((CreateMemoryDB.Save "a" "https://u1.com").2.GetUrl "a" 5 "2026-02-03").2.Save
        "a" "https://u2.com").2.GetUrl "a" 6 "2026-02-03").1 = "https://u2.com") := by
  decide

/-- C4 (corrected): `Save` never fails and is never a no-op on an existing
abbreviation: for any prior store it returns a nil error and replaces the
record bound to the abbreviation by a fresh one carrying the given URL with
hits 0, lastAccess 0 and an empty daily-hits map; in particular a repeated
same-URL save resets the statistics and a different-URL save rebinds the
abbreviation without any conflict error. -/
theorem C4_save_always_overwrites (d : MemoryDB) (a u : String) :
    (d.Save a u).1 = none ∧
    (d.Save a u).2.GetStats a = ⟨a, u, 0, 0, fun _ => 0⟩ := by
  refine ⟨rfl, ?_⟩
  simp [MemoryDB.Save, MemoryDB.GetStats, upd_same, List.getElem?_concat_length]

lemma resolveN_spec (a u : String) (now : Nat) (today : String) (hu : u ≠ "") :
    ∀ (n : Nat) (d : MemoryDB) (p : Nat) (su : ShortUrlRec),
      d.abvNdx a = some p → d.heap[p]? = some su → su.url = u →
      ∃ su' : ShortUrlRec,
        (resolveN a now today n d).1 = List.replicate n u ∧
        (resolveN a now today n d).2.abvNdx a = some p ∧
        (resolveN a now today n d).2.heap[p]? = some su' ∧
        su'.url = u ∧ su'.hits = su.hits + n ∧
        su'.dailyHits today = su.dailyHits today + n := by
  intro n
  induction n with
  | zero =>
    intro d p su hA hH hurl
    exact ⟨su, by simp [resolveN], hA, hH, hurl, rfl, rfl⟩
  | succ n ih =>
    intro d p su hA hH hurl
    have hune : su.url ≠ "" := by rw [hurl]; exact hu
    have hstep := getUrl_step d a now today p su hA hH hune
    have hA' : (MemoryDB.mk (d.heap.set p (bumpRec su now today)) d.urlNdx d.abvNdx).abvNdx a =
        some p := hA
    have hH' : (MemoryDB.mk (d.heap.set p (bumpRec su now today)) d.urlNdx d.abvNdx).heap[p]? =
        some (bumpRec su now today) := by
      show (d.heap.set p (bumpRec su now today))[p]? = _
      rw [List.getElem?_set_self', hH]
      rfl
    have hurl' : (bumpRec su now today).url = u := by simp [bumpRec, hurl]
    obtain ⟨su', h1, h2, h3, h4, h5, h6⟩ :=
      ih (MemoryDB.mk (d.heap.set p (bumpRec su now today)) d.urlNdx d.abvNdx) p
        (bumpRec su now today) hA' hH' hurl'
    have hres : resolveN a now today (n + 1) d =
        ((d.GetUrl a now today).1 ::
          (resolveN a now today n (d.GetUrl a now today).2).1,
         (resolveN a now today n (d.GetUrl a now today).2).2) := rfl
    rw [hres, hstep]
    refine ⟨su', ?_, h2, h3, h4, ?_, ?_⟩
    · simp [h1, hurl, List.replicate_succ]
    · simp only [bumpRec] at h5
      omega
    · simp only [bumpRec] at h6
      simp [upd_same] at h6
      omega

/-- C5 (confirmed): after saving `a ↦ u` with `u` non-empty, `n` consecutive
`GetUrl a` resolutions each return `u` and each records exactly one hit:
`GetStats a` afterwards reports `hits = n` (hence `≥ n`) and
`dailyHits[today] = n` (hence `≥ n`). -/
theorem C5_hit_accounting (d : MemoryDB) (a u : String) (n now : Nat)
    (today : String) (hu : u ≠ "") :
    (resolveN a now today n (d.Save a u).2).1 = List.replicate n u ∧
    ((resolveN a now today n (d.Save a u).2).2.GetStats a).hits = n ∧
    n ≤ ((resolveN a now today n (d.Save a u).2).2.GetStats a).hits ∧
    ((resolveN a now today n (d.Save a u).2).2.GetStats a).dailyHits today = n ∧
    n ≤ ((resolveN a now today n (d.Save a u).2).2.GetStats a).dailyHits today := by
  have hA : (d.Save a u).2.abvNdx a = some d.heap.length := by
    simp [MemoryDB.Save, upd_same]
  have hH : (d.Save a u).2.heap[d.heap.length]? =
      some ⟨a, u, 0, 0, fun _ => 0⟩ := by
    simp [MemoryDB.Save, List.getElem?_concat_length]
  obtain ⟨su', h1, h2, h3, h4, h5, h6⟩ :=
    resolveN_spec a u now today hu n (d.Save a u).2 d.heap.length
      ⟨a, u, 0, 0, fun _ => 0⟩ hA hH rfl
  have hst : (resolveN a now today n (d.Save a u).2).2.GetStats a = su' := by
    simp [MemoryDB.GetStats, h2, h3]
  refine ⟨h1, ?_, ?_, ?_, ?_⟩ <;> simp [hst, h5, h6]

/-- C5 witness. -/
theorem C5_hit_accounting_witness :
    (resolveN "ab" 7 "2026-02-03" 2 (CreateMemoryDB.Save "ab" "https://x.com").2).1 =
      List.replicate 2 "https://x.com" ∧
    ((resolveN "ab" 7 "2026-02-03" 2 (CreateMemoryDB.Save "ab" "https://x.com").2).2.GetStats
        "ab").hits = 2 ∧
    2 ≤ ((resolveN "ab" 7 "2026-02-03" 2 (CreateMemoryDB.Save "ab" "https://x.com").2).2.GetStats
        "ab").hits ∧
    ((resolveN "ab" 7 "2026-02-03" 2 (CreateMemoryDB.Save "ab" "https://x.com").2).2.GetStats
        "ab").dailyHits "2026-02-03" = 2 ∧
    2 ≤ ((resolveN "ab" 7 "2026-02-03" 2 (CreateMemoryDB.Save "ab" "https://x.com").2).2.GetStats
        "ab").dailyHits "2026-02-03" :=
  C5_hit_accounting CreateMemoryDB "ab" "https://x.com" 2 7 "2026-02-03" (by decide)

lemma getElem?_append_of_some {α : Type} {l : List α} {q : Nat} {x su : α}
    (h : l[q]? = some su) : (l ++ [x])[q]? = some su := by
  have hq : q < l.length := by
    by_contra hc
    rw [List.getElem?_eq_none (by omega)] at h
    exact Option.noConfusion h
  rw [List.getElem?_append_left hq]
  exact h

lemma hits_step_preserve (op : Op) (d d' : MemoryDB) (a : String) (h : Nat)
    (hns : op.isSaveOf a = false) (hap : applyOp op d = some d')
    (hh : hitsOf d a = some h) :
    (∃ h', hitsOf d' a = some h' ∧ h ≤ h') ∨ d'.abvNdx a = none := by
  cases ha : d.abvNdx a with
  | none => simp [hitsOf, ha] at hh
  | some q =>
    cases hq : d.heap[q]? with
    | none => simp [hitsOf, ha, hq] at hh
    | some su =>
      have hsu : su.hits = h := by simpa [hitsOf, ha, hq] using hh
      cases op with
      | save b v =>
        have hba : b ≠ a := by simpa [Op.isSaveOf] using hns
        have hd' : d' = (d.Save b v).2 := by simpa [applyOp] using hap.symm
        subst hd'
        refine Or.inl ⟨h, ?_, le_refl h⟩
        have h1 : (d.Save b v).2.abvNdx a = some q := by
          simp [MemoryDB.Save, upd, Ne.symm hba, ha]
        have h2 : (d.Save b v).2.heap[q]? = some su :=
          getElem?_append_of_some hq
        simp [hitsOf, h1, h2, hsu]
      | deleteAbv b =>
        cases hb : d.abvNdx b with
        | none => simp [applyOp, MemoryDB.DeleteAbv, hb] at hap
        | some p =>
          cases hp : d.heap[p]? with
          | none => simp [applyOp, MemoryDB.DeleteAbv, hb, hp] at hap
          | some sb =>
            have hd' : d' = MemoryDB.mk d.heap (upd d.urlNdx sb.url none)
                (upd d.abvNdx b none) := by
              simp [applyOp, MemoryDB.DeleteAbv, hb, hp] at hap
              exact hap.symm
            subst hd'
            by_cases hab : a = b
            · right
              simp [upd, hab]
            · left
              exact ⟨h, by simp [hitsOf, upd, hab, ha, hq, hsu], le_refl h⟩
      | deleteUrl v =>
        cases hv : d.urlNdx v with
        | none => simp [applyOp, MemoryDB.DeleteUrl, hv] at hap
        | some p =>
          cases hp : d.heap[p]? with
          | none => simp [applyOp, MemoryDB.DeleteUrl, hv, hp] at hap
          | some sb =>
            have hd' : d' = MemoryDB.mk d.heap (upd d.urlNdx v none)
                (upd d.abvNdx sb.abbreviation none) := by
              simp [applyOp, MemoryDB.DeleteUrl, hv, hp] at hap
              exact hap.symm
            subst hd'
            by_cases hab : a = sb.abbreviation
            · right
              simp [upd, hab]
            · left
              exact ⟨h, by simp [hitsOf, upd, hab, ha, hq, hsu], le_refl h⟩
      | getUrl b bnow btoday =>
        have hd' : d' = (d.GetUrl b bnow btoday).2 := by
          simpa [applyOp] using hap.symm
        subst hd'
        cases hb : d.abvNdx b with
        | none =>
          left
          exact ⟨h, by simp [MemoryDB.GetUrl, hb, hitsOf, ha, hq, hsu], le_refl h⟩
        | some p =>
          cases hp : d.heap[p]? with
          | none =>
            left
            exact ⟨h, by simp [MemoryDB.GetUrl, hb, hp, hitsOf, ha, hq, hsu], le_refl h⟩
          | some sb =>
            by_cases hu : sb.url = ""
            · left
              exact ⟨h, by simp [MemoryDB.GetUrl, hb, hp, hu, hitsOf, ha, hq, hsu],
                le_refl h⟩
            · rw [getUrl_step d b bnow btoday p sb hb hp hu]
              by_cases hpq : p = q
              · subst hpq
                have hsb : sb = su := by
                  rw [hp] at hq
                  exact Option.some.inj hq
                subst hsb
                left
                have hqset : (d.heap.set p (bumpRec sb bnow btoday))[p]? =
                    some (bumpRec sb bnow btoday) := by
                  rw [List.getElem?_set_self', hp]
                  rfl
                refine ⟨sb.hits + 1, ?_, by omega⟩
                simp only [bumpRec] at hqset
                simp [hitsOf, ha, hqset, bumpRec]
              · left
                refine ⟨h, ?_, le_refl h⟩
                have hqn : (d.heap.set p (bumpRec sb bnow btoday))[q]? = d.heap[q]? :=
                  List.getElem?_set_ne hpq
                simp [hitsOf, ha, hqn, hq, hsu]
      | getAbv v =>
        have hd : d = d' := by simpa [applyOp] using hap
        exact Or.inl ⟨h, hd ▸ hh, le_refl h⟩
      | getStats b =>
        have hd : d = d' := by simpa [applyOp] using hap
        exact Or.inl ⟨h, hd ▸ hh, le_refl h⟩

lemma abvNone_step (op : Op) (d d' : MemoryDB) (a : String)
    (hns : op.isSaveOf a = false) (hap : applyOp op d = some d')
    (hn : d.abvNdx a = none) : d'.abvNdx a = none := by
  cases op with
  | save b v =>
    have hba : b ≠ a := by simpa [Op.isSaveOf] using hns
    have hd' : d' = (d.Save b v).2 := by simpa [applyOp] using hap.symm
    subst hd'
    simp [MemoryDB.Save, upd, Ne.symm hba, hn]
  | deleteAbv b =>
    cases hb : d.abvNdx b with
    | none => simp [applyOp, MemoryDB.DeleteAbv, hb] at hap
    | some p =>
      cases hp : d.heap[p]? with
      | none => simp [applyOp, MemoryDB.DeleteAbv, hb, hp] at hap
      | some sb =>
        have hd' : d' = MemoryDB.mk d.heap (upd d.urlNdx sb.url none)
            (upd d.abvNdx b none) := by
          simp [applyOp, MemoryDB.DeleteAbv, hb, hp] at hap
          exact hap.symm
        subst hd'
        simp [upd, hn]
  | deleteUrl v =>
    cases hv : d.urlNdx v with
    | none => simp [applyOp, MemoryDB.DeleteUrl, hv] at hap
    | some p =>
      cases hp : d.heap[p]? with
      | none => simp [applyOp, MemoryDB.DeleteUrl, hv, hp] at hap
      | some sb =>
        have hd' : d' = MemoryDB.mk d.heap (upd d.urlNdx v none)
            (upd d.abvNdx sb.abbreviation none) := by
          simp [applyOp, MemoryDB.DeleteUrl, hv, hp] at hap
          exact hap.symm
        subst hd'
        simp [upd, hn]
  | getUrl b bnow btoday =>
    have hd' : d' = (d.GetUrl b bnow btoday).2 := by
      simpa [applyOp] using hap.symm
    subst hd'
    cases hb : d.abvNdx b with
    | none => simpa [MemoryDB.GetUrl, hb] using hn
    | some p =>
      cases hp : d.heap[p]? with
      | none => simpa [MemoryDB.GetUrl, hb, hp] using hn
      | some sb =>
        by_cases hu : sb.url = ""
        · simpa [MemoryDB.GetUrl, hb, hp, hu] using hn
        · rw [getUrl_step d b bnow btoday p sb hb hp hu]
          exact hn
  | getAbv v =>
    have hd : d = d' := by simpa [applyOp] using hap
    exact hd ▸ hn
  | getStats b =>
    have hd : d = d' := by simpa [applyOp] using hap
    exact hd ▸ hn

lemma abvNone_run :
    ∀ (ops : List Op) (d d' : MemoryDB) (a : String),
      (∀ op ∈ ops, op.isSaveOf a = false) → applyOps ops d = some d' →
      d.abvNdx a = none → d'.abvNdx a = none := by
  intro ops
  induction ops with
  | nil =>
    intro d d' a _ hap hn
    have hd : d = d' := by simpa [applyOps] using hap
    exact hd ▸ hn
  | cons op ops ih =>
    intro d d' a hns hap hn
    cases hstep : applyOp op d with
    | none => simp [applyOps, hstep] at hap
    | some d₁ =>
      have hap' : applyOps ops d₁ = some d' := by
        simpa [applyOps, hstep] using hap
      exact ih d₁ d' a (fun op' hmem => hns op' (List.mem_cons_of_mem _ hmem)) hap'
        (abvNone_step op d d₁ a (hns op (List.mem_cons_self _ _)) hstep hn)

lemma hits_mono_run :
    ∀ (ops : List Op) (d d' : MemoryDB) (a : String) (h : Nat),
      (∀ op ∈ ops, op.isSaveOf a = false) → applyOps ops d = some d' →
      hitsOf d a = some h →
      (∃ h', hitsOf d' a = some h' ∧ h ≤ h') ∨ d'.abvNdx a = none := by
  intro ops
  induction ops with
  | nil =>
    intro d d' a h _ hap hh
    have hd : d = d' := by simpa [applyOps] using hap
    exact Or.inl ⟨h, hd ▸ hh, le_refl h⟩
  | cons op ops ih =>
    intro d d' a h hns hap hh
    cases hstep : applyOp op d with
    | none => simp [applyOps, hstep] at hap
    | some d₁ =>
      have hap' : applyOps ops d₁ = some d' := by
        simpa [applyOps, hstep] using hap
      have hns' : ∀ op' ∈ ops, Op.isSaveOf op' a = false :=
        fun op' hmem => hns op' (List.mem_cons_of_mem _ hmem)
      cases hits_step_preserve op d d₁ a h (hns op (List.mem_cons_self _ _)) hstep hh with
      | inl hsome =>
        obtain ⟨h₁, hh₁, hle₁⟩ := hsome
        cases ih d₁ d' a h₁ hns' hap' hh₁ with
        | inl hs =>
          obtain ⟨h', hh', hle'⟩ := hs
          exact Or.inl ⟨h', hh', by omega⟩
        | inr hn => exact Or.inr hn
      | inr hnone => exact Or.inr (abvNone_run ops d₁ d' a hns' hap' hnone)

/-- C9 counterexample: `Save "a" u`, one resolution (hits = 1), then a second
`Save "a" u` with the very same URL: the record is bound to `"a"` at every
step (its hits are `some _` throughout, so it exists continuously), yet its
hits drop from 1 back to 0 because `Save` replaces the record. -/
theorem C9_counterexample :
    hitsOf (CreateMemoryDB.Save "a" "https://x.com").2 "a" = some 0 ∧
    hitsOf ((CreateMemoryDB.Save "a" "https://x.com").2.GetUrl "a" 3 "2026-03-04").2 "a" =
      some 1 ∧
    hitsOf (((CreateMemoryDB.Save "a" "https://x.com").2.GetUrl "a" 3
        "2026-03-04").2.Save "a" "https://x.com").2 "a" = some 0 := by
  decide

/-- C9 (corrected): for a given abbreviation, `hits` is monotonically
non-decreasing across any sequence of backend operations that contains no
`Save` of that very abbreviation — saves of other keys, resolutions,
reverse lookups, stats queries and deletes are all allowed; a `Save` of the
abbreviation itself, even with the identical URL and while the record exists
continuously, replaces the record and resets its hits to 0, decreasing it. -/
theorem C9_hits_monotone (ops : List Op) (d d' : MemoryDB) (a : String)
    (h h' : Nat) (hns : ∀ op ∈ ops, op.isSaveOf a = false)
    (hrun : applyOps ops d = some d') (h0 : hitsOf d a = some h)
    (h1 : hitsOf d' a = some h') : h ≤ h' := by
  cases hits_mono_run ops d d' a h hns hrun h0 with
  | inl hs =>
    obtain ⟨h'', hh'', hle⟩ := hs
    rw [h1] at hh''
    injection hh'' with heq
    omega
  | inr hn => simp [hitsOf, hn] at h1

/-- C9 witness (the operation sequence includes a `Save` of a different
abbreviation, which preserves the tracked record's hits). -/
theorem C9_hits_monotone_witness : (0 : Nat) ≤ 1 :=
  C9_hits_monotone [Op.save "b" "https://y.com", Op.getUrl "a" 1 "2026-03-04"]
    (CreateMemoryDB.Save "a" "https://x.com").2
    ((((CreateMemoryDB.Save "a" "https://x.com").2.Save "b" "https://y.com").2).GetUrl
      "a" 1 "2026-03-04").2
    "a" 0 1 (by decide) rfl rfl rfl

lemma RandStrn_length (n : Nat) (rand : Nat → Nat) (pos : Nat) :
    (RandStrn n rand pos).length = n := by
  simp [RandStrn, String.length]

lemma randStringA_accept (g : Nat) (rand : Nat → Nat) (fuel tries pos ks : Nat)
    (h : AcceptableWord (RandStrn ks rand pos) = true) :
    randStringA g rand (fuel + 1) tries pos ks =
      some (RandStrn ks rand pos, pos + ks, ks) := by
  simp [randStringA, h]

lemma randStringA_reject (g : Nat) (rand : Nat → Nat) (fuel tries pos ks : Nat)
    (h : AcceptableWord (RandStrn ks rand pos) = false) (ht : tries + 1 ≤ g) :
    randStringA g rand (fuel + 1) tries pos ks =
      randStringA g rand fuel (tries + 1) (pos + ks) ks := by
  simp [randStringA, h, Nat.not_lt.mpr ht]

lemma randStringA_grow (g : Nat) (rand : Nat → Nat) (fuel tries pos ks : Nat)
    (h : AcceptableWord (RandStrn ks rand pos) = false) (ht : g < tries + 1) :
    randStringA g rand (fuel + 1) tries pos ks =
      randStringA g rand fuel 0 (pos + ks) (ks + 1) := by
  simp [randStringA, h, ht]

lemma randStringA_sound (g : Nat) (rand : Nat → Nat) :
    ∀ (fuel tries pos ks : Nat) (s : String) (pos' ks' : Nat),
      randStringA g rand fuel tries pos ks = some (s, pos', ks') →
      AcceptableWord s = true ∧ s.length = ks' ∧ ks ≤ ks' := by
  intro fuel
  induction fuel with
  | zero =>
    intro tries pos ks s pos' ks' h
    simp [randStringA] at h
  | succ fuel ih =>
    intro tries pos ks s pos' ks' h
    by_cases hacc : AcceptableWord (RandStrn ks rand pos) = true
    · rw [randStringA_accept g rand fuel tries pos ks hacc] at h
      simp at h
      obtain ⟨h1, h2, h3⟩ := h
      subst h1
      subst h3
      exact ⟨hacc, RandStrn_length ks rand pos, le_refl ks⟩
    · have hacc' : AcceptableWord (RandStrn ks rand pos) = false := by
        simpa using hacc
      by_cases hg : g < tries + 1
      · rw [randStringA_grow g rand fuel tries pos ks hacc' hg] at h
        obtain ⟨a1, a2, a3⟩ := ih 0 (pos + ks) (ks + 1) s pos' ks' h
        exact ⟨a1, a2, by omega⟩
      · rw [randStringA_reject g rand fuel tries pos ks hacc' (by omega)] at h
        exact ih (tries + 1) (pos + ks) ks s pos' ks' h

lemma randStringA_run_rejects (g : Nat) (rand : Nat → Nat) (ks : Nat) :
    ∀ (m fuel tries pos : Nat),
      (∀ i, i < m → AcceptableWord (RandStrn ks rand (pos + ks * i)) = false) →
      tries + m ≤ g →
      randStringA g rand (fuel + m) tries pos ks =
        randStringA g rand fuel (tries + m) (pos + ks * m) ks := by
  intro m
  induction m with
  | zero =>
    intro fuel tries pos _ _
    simp
  | succ m ih =>
    intro fuel tries pos hrej hm
    have h0 : AcceptableWord (RandStrn ks rand pos) = false := by
      have h := hrej 0 (Nat.succ_pos m)
      simpa using h
    have he : fuel + (m + 1) = (fuel + m) + 1 := by omega
    rw [he, randStringA_reject g rand (fuel + m) tries pos ks h0 (by omega)]
    have hrej' : ∀ i, i < m →
        AcceptableWord (RandStrn ks rand (pos + ks + ks * i)) = false := by
      intro i hi
      have h := hrej (i + 1) (by omega)
      have e : pos + ks * (i + 1) = pos + ks + ks * i := by ring
      rw [e] at h
      exact h
    rw [ih fuel (tries + 1) (pos + ks) hrej' (by omega)]
    have e1 : tries + 1 + m = tries + (m + 1) := by omega
    have e2 : pos + ks + ks * m = pos + ks * (m + 1) := by ring
    rw [e1, e2]

/-- C2 counterexample: with growthThreshold 10, keySize 3 and a store binding
"abc" to a different URL, an allocation run sees exactly 11 consecutive
rejected candidates — the first ("abc") by collision, the next ten ("ass")
by filter — before the 12th candidate ("xyz") is accepted, yet the shared
keySize ends at 3, unchanged, because the collision counter and the filter
counter are separate and neither exceeds the threshold. -/
theorem C2_counterexample :
    ((CreateMemoryDB.Save "abc" "https://other.com").2.GetUrl "abc" 0 "2026-01-01").1 =
      "https://other.com" ∧
    (∀ i, i < 10 → AcceptableWord (RandStrn 3 randC2 (3 + 3 * i)) = false) ∧
    AcceptableWord (RandStrn 3 randC2 0) = true ∧
    AcceptableWord (RandStrn 3 randC2 33) = true ∧
    allocSummary (CreateAbbreviation 10 randC2 (memBackend 0 "2026-01-01")
      "https://mine.com" 15
      ⟨3, 0, (CreateMemoryDB.Save "abc" "https://other.com").2⟩) =
      some (some "xyz", 3) := by
  decide

/-- C2 (corrected): the filter counter and the collision counter are
separate. For the filter counter: with growthThreshold 10, if within one key
generation the first 11 consecutive candidates are rejected by the
Acceptability Filter and the 12th (generated at the grown length) is
accepted, the shared keySize increases by exactly 1 and no more (final
keySize is exactly `ks + 1`). Mixed filter/collision rejection runs of
length 11 need not grow the keySize at all. -/
theorem C2_filter_growth (rand : Nat → Nat) (f pos ks : Nat)
    (hrej : ∀ i, i < 11 → AcceptableWord (RandStrn ks rand (pos + ks * i)) = false)
    (hacc : AcceptableWord (RandStrn (ks + 1) rand (pos + ks * 11)) = true) :
    randStringA 10 rand (f + 12) 0 pos ks =
      some (RandStrn (ks + 1) rand (pos + ks * 11), pos + ks * 11 + (ks + 1), ks + 1) := by
  have e1 : f + 12 = (f + 2) + 10 := by omega
  have hrun := randStringA_run_rejects 10 rand ks 10 (f + 2) 0 pos
    (fun i hi => hrej i (by omega)) (by omega)
  rw [e1, hrun]
  have h10 : AcceptableWord (RandStrn ks rand (pos + ks * 10)) = false :=
    hrej 10 (by omega)
  have e3 : f + 2 = (f + 1) + 1 := by omega
  rw [show (0 : Nat) + 10 = 10 from rfl, e3,
      randStringA_grow 10 rand (f + 1) 10 (pos + ks * 10) ks h10 (by omega)]
  have e4 : pos + ks * 10 + ks = pos + ks * 11 := by ring
  rw [e4, randStringA_accept 10 rand f 0 (pos + ks * 11) (ks + 1) hacc]

/-- C2 witness. -/
theorem C2_filter_growth_witness :
    randStringA 10 randC2w 12 0 0 3 = some (RandStrn 4 randC2w 33, 37, 4) :=
  C2_filter_growth randC2w 0 0 3 (by decide) (by decide)

/-- C3 counterexample: a backend whose every lookup reports a hard error
(while returning an empty URL). The allocator's first and loop-condition
lookups discard the error, so `CreateAbbreviation` returns the candidate
"a" as a success (nil error) even though every backend lookup it performed
during allocation returned a hard error. -/
theorem C3_counterexample :
    (failBackend.getUrl () "a").1.2 = some "backend down" ∧
    allocSummary (CreateAbbreviation 10 rand0 failBackend "https://m.com" 2
      ⟨1, 0, ()⟩) = some (some "a", 1) := by
  decide

/-- C3 (corrected): only the designated error-checking lookup inside the
collision-retry loop aborts the allocation: whenever the loop is entered
with a colliding URL (`u` non-empty and different from `url`) and that
lookup reports a hard error `e`, the loop immediately returns the wrapped
error and no abbreviation, without retrying further candidates. Errors
returned by the initial lookup and by the loop-condition lookups are
discarded (see the counterexample). -/
theorem C3_loop_error_aborts {σ : Type} (g : Nat) (rand : Nat → Nat)
    (B : Backend σ) (url : String) (fuel : Nat) (abv u : String) (tries : Nat)
    (st : AllocState σ) (e : String) (hu : u ≠ "") (hcol : url ≠ u)
    (herr : (B.getUrl st.backend abv).1.2 = some e) :
    createLoop g rand B url (fuel + 1) abv u tries st =
      some (.err ("error checking abbreviation " ++ e),
        ⟨if g < tries + 1 then st.keySize + 1 else st.keySize, st.pos,
         (B.getUrl st.backend abv).2⟩) := by
  by_cases hgrow : g < tries + 1 <;>
    simp [createLoop, hu, hcol, herr, hgrow]

/-- C3 witness. -/
theorem C3_loop_error_aborts_witness :
    createLoop 10 rand0 failBackend "https://m.com" 1 "a" "bound" 0 ⟨1, 0, ()⟩ =
      some (.err "error checking abbreviation backend down", ⟨1, 0, ()⟩) :=
  C3_loop_error_aborts 10 rand0 failBackend "https://m.com" 0 "a" "bound" 0
    ⟨1, 0, ()⟩ "backend down" (by decide) (by decide) rfl

lemma createLoop_sound {σ : Type} (g : Nat) (rand : Nat → Nat) (B : Backend σ)
    (url : String) :
    ∀ (fuel : Nat) (abv u : String) (tries : Nat) (st : AllocState σ)
      (abv' : String) (stf : AllocState σ),
      1 ≤ st.keySize → AcceptableWord abv = true → abv ≠ "" →
      (∃ (σ₀ : σ) (e : Option String), B.getUrl σ₀ abv = ((u, e), st.backend)) →
      createLoop g rand B url fuel abv u tries st = some (.ok abv', stf) →
      AcceptableWord abv' = true ∧ abv' ≠ "" ∧
      ∃ (σ₀ : σ) (u' : String) (e : Option String),
        B.getUrl σ₀ abv' = ((u', e), stf.backend) ∧ (u' = "" ∨ u' = url) := by
  intro fuel
  induction fuel with
  | zero =>
    intro abv u tries st abv' stf _ _ _ _ hrun
    simp [createLoop] at hrun
  | succ fuel ih =>
    intro abv u tries st abv' stf hks hacc hne hlook hrun
    by_cases hcond : u ≠ "" ∧ url ≠ u
    · by_cases hgrow : g < tries + 1
      · cases herr : (B.getUrl st.backend abv).1.2 with
        | some e =>
          simp [createLoop, hcond, hgrow, herr] at hrun
        | none =>
          simp only [createLoop, if_pos hcond, herr, if_pos hgrow] at hrun
          cases hrs : randStringA g rand (fuel + 1) 0 st.pos (st.keySize + 1) with
          | none => rw [hrs] at hrun; simp at hrun
          | some t =>
            obtain ⟨abv₂, pos₂, ks₂⟩ := t
            rw [hrs] at hrun
            obtain ⟨ha₂, hl₂, hk₂⟩ := randStringA_sound g rand (fuel + 1) 0 st.pos
              (st.keySize + 1) abv₂ pos₂ ks₂ hrs
            have hne₂ : abv₂ ≠ "" := (string_pos_iff abv₂).mp (by omega)
            exact ih abv₂ ((B.getUrl (B.getUrl st.backend abv).2 abv₂).1.1) 0
              ⟨ks₂, pos₂, (B.getUrl (B.getUrl st.backend abv).2 abv₂).2⟩ abv' stf
              (by show 1 ≤ ks₂; omega) ha₂ hne₂
              ⟨(B.getUrl st.backend abv).2, (B.getUrl (B.getUrl st.backend abv).2 abv₂).1.2,
                rfl⟩ hrun
      · cases herr : (B.getUrl st.backend abv).1.2 with
        | some e =>
          simp [createLoop, hcond, hgrow, herr] at hrun
        | none =>
          simp only [createLoop, if_pos hcond, herr, if_neg hgrow] at hrun
          cases hrs : randStringA g rand (fuel + 1) 0 st.pos st.keySize with
          | none => rw [hrs] at hrun; simp at hrun
          | some t =>
            obtain ⟨abv₂, pos₂, ks₂⟩ := t
            rw [hrs] at hrun
            obtain ⟨ha₂, hl₂, hk₂⟩ := randStringA_sound g rand (fuel + 1) 0 st.pos
              st.keySize abv₂ pos₂ ks₂ hrs
            have hne₂ : abv₂ ≠ "" := (string_pos_iff abv₂).mp (by omega)
            exact ih abv₂ ((B.getUrl (B.getUrl st.backend abv).2 abv₂).1.1) (tries + 1)
              ⟨ks₂, pos₂, (B.getUrl (B.getUrl st.backend abv).2 abv₂).2⟩ abv' stf
              (by show 1 ≤ ks₂; omega) ha₂ hne₂
              ⟨(B.getUrl st.backend abv).2, (B.getUrl (B.getUrl st.backend abv).2 abv₂).1.2,
                rfl⟩ hrun
    · simp [createLoop, hcond] at hrun
      obtain ⟨h1, h2⟩ := hrun
      push_neg at hcond
      obtain ⟨σ₀, e, hlk⟩ := hlook
      subst h1
      subst h2
      by_cases hu0 : u = ""
      · exact ⟨hacc, hne, σ₀, u, e, hlk, Or.inl hu0⟩
      · exact ⟨hacc, hne, σ₀, u, e, hlk, Or.inr (hcond hu0).symm⟩

/-- C1 (confirmed): whenever `CreateAbbreviation` returns without error
(result `.ok abv`), starting from any state whose shared keySize is at least
1, the returned abbreviation is non-empty, passes the Acceptability Filter,
and the final backend lookup the allocator performed on it — the one whose
post-state is the state at return time — reported it bound either to the
empty URL (unbound) or to `url` itself. -/
theorem C1_create_abbreviation_sound {σ : Type} (g : Nat) (rand : Nat → Nat)
    (B : Backend σ) (url : String) (fuel : Nat) (st : AllocState σ)
    (abv : String) (stf : AllocState σ) (hks : 1 ≤ st.keySize)
    (hrun : CreateAbbreviation g rand B url fuel st = some (.ok abv, stf)) :
    abv ≠ "" ∧ AcceptableWord abv = true ∧
    ∃ (σ₀ : σ) (u : String) (e : Option String),
      B.getUrl σ₀ abv = ((u, e), stf.backend) ∧ (u = "" ∨ u = url) := by
  unfold CreateAbbreviation at hrun
  cases hrs : randStringA g rand fuel 0 st.pos st.keySize with
  | none => rw [hrs] at hrun; simp at hrun
  | some t =>
    obtain ⟨abv₀, pos₀, ks₀⟩ := t
    rw [hrs] at hrun
    obtain ⟨ha₀, hl₀, hk₀⟩ :=
      randStringA_sound g rand fuel 0 st.pos st.keySize abv₀ pos₀ ks₀ hrs
    have hne₀ : abv₀ ≠ "" := (string_pos_iff abv₀).mp (by omega)
    obtain ⟨hA, hN, hE⟩ := createLoop_sound g rand B url fuel abv₀
      ((B.getUrl st.backend abv₀).1.1) 0
      ⟨ks₀, pos₀, (B.getUrl st.backend abv₀).2⟩ abv stf
      (by show 1 ≤ ks₀; omega) ha₀ hne₀
      ⟨st.backend, (B.getUrl st.backend abv₀).1.2, rfl⟩ hrun
    exact ⟨hN, hA, hE⟩

/-- C1 witness. -/
theorem C1_create_abbreviation_sound_witness :
    "a" ≠ "" ∧ AcceptableWord "a" = true ∧
    ∃ (σ₀ : Unit) (u : String) (e : Option String),
      trivBackend.getUrl σ₀ "a" =
        ((u, e), (AllocState.mk 1 1 () : AllocState Unit).backend) ∧
      (u = "" ∨ u = "https://w.com") :=
  C1_create_abbreviation_sound 10 rand0 trivBackend "https://w.com" 2
    ⟨1, 0, ()⟩ "a" ⟨1, 1, ()⟩ (by decide) rfl

end ShortUrl4
